import Mathlib

/-!
# Teacher list (`main.c`): a shallow embedding and its properties

The program keeps `Teacher` records in a singly linked list (`List`, with a
`head` pointer and a `length` counter) and offers insertion at the head,
search, update and deletion by id.

## Modelling decisions

* A `ListNode *` is either `NULL` or the address of a node holding a teacher
  and the next pointer.  The lists the program builds are finite and acyclic
  and every node owns its teacher, so a pointer is modelled by the chain of
  nodes it leads to (`ListNode.NULL` or `ListNode.node t nextNode`).  Two
  different nodes of one chain lead to chains of different size, so a node
  of a chain is identified by the chain that starts at it.
* Ids and ages are `int` values that are only stored and compared; they are
  modelled by `Int`.
* The counter `length` is a 32-bit `int` on which the program computes
  (`length++`, `length--`).  It is modelled by an `Int` that lies in the range
  `INT_MIN .. INT_MAX`, and both operations are reduced to that range with an
  explicit `% 2 ^ 32` (`wrap32`): incrementing `INT_MAX` gives `INT_MIN` and
  decrementing `INT_MIN` gives `INT_MAX`, as the compiled program does.
* `malloc` is taken to succeed, `free` and the messages printed to the console
  are not modelled.
* The two `fgets` reads of `updateTeacher`, the cut at the line end and the
  `strtol` conversion of the second read are the input provider: the model
  receives what they deliver, the text left in `name_buf` and the `int` stored
  in `age`.  The bound `INPUT_SIZE` on a line therefore lies with the provider.
  The input is taken not to end while an answer is awaited.
-/

namespace TeacherList

/-! ## Data model -/

/-- A Teacher object (`struct Teacher`): id, age and name. -/
structure Teacher where
  id : Int
  age : Int
  name : String
  deriving DecidableEq

/-- A pointer to a list node (`ListNode *`): `NULL`, or a node with its
teacher `t` and its `nextNode` pointer. -/
inductive ListNode where
  | NULL : ListNode
  | node (t : Teacher) (nextNode : ListNode) : ListNode
  deriving DecidableEq

/-- The largest value of an `int`, `2 ^ 31 - 1`. -/
def INT_MAX : Int := 2147483647

/-- The `int` that a computation with the exact result `x` leaves: `x` reduced
modulo `2 ^ 32` into the range `INT_MIN .. INT_MAX`. -/
def wrap32 (x : Int) : Int :=
  (x + 2147483648) % 4294967296 - 2147483648

/-- The linked list of teachers (`struct List` of the source; named `TList`
here because `List` is Lean's own list type): the `head` pointer and the
`length` counter, which is an `int` (`length_int` is its range). -/
structure TList where
  head : ListNode
  length : Int
  length_int : -2147483648 ≤ length ∧ length ≤ 2147483647
  deriving DecidableEq

/-- What one call of `updateTeacher` reads from the user: the contents of
`name_buf` after the line end is cut off, and the `age` that `strtol` gives. -/
structure UserInput where
  name_buf : String
  age : Int
  deriving DecidableEq

/-- The input provider: the answers the user has still to give, in order. -/
structure Stdin where
  pending : Nat → UserInput

/-- Reads the next answer and advances the input. -/
def Stdin.read (stdin : Stdin) : UserInput × Stdin :=
  (stdin.pending 0, ⟨fun k => stdin.pending (k + 1)⟩)

/-- The input that delivers `r` first and then goes on as `rest`. -/
def Stdin.push (r : UserInput) (rest : Stdin) : Stdin :=
  ⟨fun k => match k with
    | 0 => r
    | k + 1 => rest.pending k⟩

/-! ## Teacher functions -/

/-- `createTeacher(id, age, name)`: a new teacher with a copy of the name. -/
def createTeacher (id age : Int) (name : String) : Teacher :=
  { id := id, age := age, name := name }

/-- `updateTeacher(t)`: reads a name and an age from the user and stores them
in `t`; the id is not changed.  Returns the teacher and the remaining input. -/
def updateTeacher (t : Teacher) (stdin : Stdin) : Teacher × Stdin :=
  let answer := stdin.read
  ({ t with age := answer.1.age, name := answer.1.name_buf }, answer.2)

/-! ## Linked list functions -/

/-- The assignment `p->nextNode = next` (nothing to assign for `NULL`, which
the program never does). -/
def ListNode.setNextNode : ListNode → ListNode → ListNode
  | .NULL, _ => .NULL
  | .node t _, next => .node t next

/-- The assignment `p->t = t'` (more precisely the in-place update of the
teacher `p->t`), seen from `head`: the chain from `head` in which the node `p`
holds `t'`.  A chain that does not reach `p` is unchanged. -/
def ListNode.setT : ListNode → ListNode → Teacher → ListNode
  | .NULL, _, _ => .NULL
  | .node t nextNode, p, t' =>
    if .node t nextNode = p then .node t' nextNode
    else .node t (ListNode.setT nextNode p t')

/-- The teachers of the nodes reachable from a pointer, head first: the
traversal of `displayList`. -/
def ListNode.enumerate : ListNode → List Teacher
  | .NULL => []
  | .node t nextNode => t :: ListNode.enumerate nextNode

/-- `createNode(t)`: a new node holding `t`, with `nextNode = NULL`. -/
def createNode (t : Teacher) : ListNode :=
  .node t .NULL

/-- `insert(list, t)`: a new node for `t` becomes the head; `length++` on the
32-bit counter. -/
def insert (list : TList) (t : Teacher) : TList :=
  let newNode := createNode t
  let newNode := newNode.setNextNode list.head
  { head := newNode, length := wrap32 (list.length + 1),
    length_int := by unfold wrap32; omega }

/-- The `while` loop of `searchByID`, started at `current`: the first node
from `current` on whose teacher has the id, `NULL` when there is none. -/
def searchFrom : ListNode → Int → ListNode
  | .NULL, _ => .NULL
  | .node t nextNode, id =>
    if t.id = id then .node t nextNode
    else searchFrom nextNode id

/-- `searchByID(list, id)`: the loop started at `list->head`. -/
def searchByID (list : TList) (id : Int) : ListNode :=
  searchFrom list.head id

/-- `isUniqueID(list, id)`: `false` when `searchByID` finds a node, `true`
otherwise. -/
def isUniqueID (list : TList) (id : Int) : Bool :=
  match searchByID list id with
  | .node _ _ => false
  | .NULL => true

/-- `updateById(list, id)`: returns 1 when `searchByID` finds no node;
otherwise runs `updateTeacher` on the teacher of the node found and returns 0.
The result is the return value, the list and the remaining input. -/
def updateById (list : TList) (id : Int) (stdin : Stdin) : Int × TList × Stdin :=
  match searchByID list id with
  | .NULL => (1, list, stdin)
  | .node t nextNode =>
    let r := updateTeacher t stdin
    (0, { list with head := list.head.setT (.node t nextNode) r.1 }, r.2)

/-- The second half of `deleteByID`, for a `current` node with teacher `t`
whose id is not the one looked for: the loop advances while the next node
exists and has another id; it gives `none` when it reaches the end
(`current->nextNode == NULL`), and otherwise the chain from `current` after
`current->nextNode = deleteNode->nextNode`. -/
def unlinkNext (t : Teacher) : ListNode → Int → Option ListNode
  | .NULL, _ => none
  | .node t' nextNode', id =>
    if t'.id ≠ id then (unlinkNext t' nextNode' id).map (ListNode.node t)
    else some (.node t nextNode')

/-- `deleteByID(list, id)`: -1 on an empty list; 0 after unlinking the head
when it has the id; otherwise scans for the node, 1 when none is found, 0
after unlinking it.  Both successful paths do `length--` on the 32-bit
counter.  The result is the return value and the list. -/
def deleteByID (list : TList) (id : Int) : Int × TList :=
  match list.head with
  | .NULL => (-1, list)
  | .node t nextNode =>
    if t.id = id then
      (0, { head := nextNode, length := wrap32 (list.length - 1),
            length_int := by unfold wrap32; omega })
    else
      match unlinkNext t nextNode id with
      | none => (1, list)
      | some current =>
        (0, { head := current, length := wrap32 (list.length - 1),
              length_int := by unfold wrap32; omega })

/-- `createList()`: the empty list, `head = NULL` and `length = 0`. -/
def createList : TList :=
  { head := .NULL, length := 0, length_int := by omega }

/-! ## Vocabulary of the properties -/

/-- The records of the store, head first. -/
def TList.enumerate (list : TList) : List Teacher :=
  list.head.enumerate

/-- The ids of the records of the store, head first. -/
def TList.ids (list : TList) : List Int :=
  list.enumerate.map Teacher.id

/-- One call on the store: `insert(list, t)` or `deleteByID(list, id)`. -/
inductive Op where
  | insert (t : Teacher) : Op
  | deleteByID (id : Int) : Op
  deriving DecidableEq

/-- The store after one call; what the call returns is dropped. -/
def applyOp (list : TList) : Op → TList
  | .insert t => insert list t
  | .deleteByID id => (deleteByID list id).2

/-- The store after a sequence of calls, in order. -/
def runOps (list : TList) (ops : List Op) : TList :=
  ops.foldl applyOp list

/-- The store after inserting the records of `ts` one after the other. -/
def insertAll (list : TList) (ts : List Teacher) : TList :=
  ts.foldl insert list

/-- Every insert of the sequence is guarded as in the loop of `addToList`:
`isUniqueID(list, t.id)` is true on the store as it is right before
`insert(list, t)`. -/
def guardedInserts : TList → List Teacher → Bool
  | _, [] => true
  | list, t :: ts => isUniqueID list t.id && guardedInserts (insert list t) ts

/-- Reference definition for deletion, after the specification: the sequence
of records with the first record whose id is `id` erased; the other records
are kept, in order. -/
def eraseFirstWithId : List Teacher → Int → List Teacher
  | [], _ => []
  | t :: ts, id => if t.id = id then ts else t :: eraseFirstWithId ts id

/-- The second node from the head whose record has the id: the first match of
the search taken up again behind the first match (`NULL` when fewer than two
records have the id). -/
def secondMatch (list : TList) (id : Int) : ListNode :=
  match searchByID list id with
  | .NULL => .NULL
  | .node _ nextNode => searchFrom nextNode id

@[simp] theorem enumerate_NULL : ListNode.NULL.enumerate = [] := rfl

@[simp] theorem enumerate_node (t : Teacher) (n : ListNode) :
    (ListNode.node t n).enumerate = t :: n.enumerate := rfl

theorem enumerate_eq_nil_iff (n : ListNode) : n.enumerate = [] ↔ n = .NULL := by
  cases n <;> simp

theorem wrap32_of_int (x : Int) (h : -2147483648 ≤ x ∧ x ≤ 2147483647) : wrap32 x = x := by
  unfold wrap32
  omega

/-- Reduction to the `int` range may be done at the end of a sum. -/
theorem wrap32_add (x y : Int) : wrap32 (wrap32 x + y) = wrap32 (x + y) := by
  unfold wrap32
  omega

theorem TList.eq_of_fields (a b : TList) (hhead : a.head = b.head)
    (hlength : a.length = b.length) : a = b := by
  cases a
  cases b
  simp only [TList.mk.injEq]
  exact ⟨hhead, hlength⟩

theorem insert_head (list : TList) (t : Teacher) :
    (insert list t).head = .node t list.head := rfl

theorem insert_length (list : TList) (t : Teacher) :
    (insert list t).length = wrap32 (list.length + 1) := rfl

@[simp] theorem enumerate_insert (list : TList) (t : Teacher) :
    (insert list t).enumerate = t :: list.enumerate := rfl

@[simp] theorem ids_insert (list : TList) (t : Teacher) :
    (insert list t).ids = t.id :: list.ids := rfl

theorem mem_ids_iff (list : TList) (id : Int) :
    id ∈ list.ids ↔ ∃ t ∈ list.enumerate, t.id = id := by
  simp [TList.ids]

theorem searchFrom_eq_NULL_iff (n : ListNode) (id : Int) :
    searchFrom n id = .NULL ↔ ∀ t ∈ n.enumerate, t.id ≠ id := by
  induction n with
  | NULL => simp [searchFrom]
  | node t nxt ih =>
    by_cases h : t.id = id
    · simp [searchFrom, h]
    · simp [searchFrom, h, ih]

theorem searchFrom_node (n : ListNode) (id : Int) (t : Teacher) (nxt : ListNode)
    (h : searchFrom n id = .node t nxt) :
    t.id = id ∧ ∃ pre, n.enumerate = pre ++ t :: nxt.enumerate ∧ ∀ u ∈ pre, u.id ≠ id := by
  induction n with
  | NULL => simp [searchFrom] at h
  | node t0 n0 ih =>
    by_cases h0 : t0.id = id
    · simp only [searchFrom, h0, if_true, ListNode.node.injEq] at h
      obtain ⟨rfl, rfl⟩ := h
      exact ⟨h0, [], by simp, by simp⟩
    · simp only [searchFrom, h0, if_false] at h
      obtain ⟨hid, pre, hpre, hne⟩ := ih h
      refine ⟨hid, t0 :: pre, by simp [hpre], ?_⟩
      intro u hu
      rcases List.mem_cons.mp hu with rfl | hu
      · exact h0
      · exact hne u hu

theorem eraseFirstWithId_append (pre post : List Teacher) (u : Teacher) (id : Int)
    (hpre : ∀ v ∈ pre, v.id ≠ id) (hu : u.id = id) :
    eraseFirstWithId (pre ++ u :: post) id = pre ++ post := by
  induction pre with
  | nil => simp [eraseFirstWithId, hu]
  | cons a pre ih =>
    have ha : a.id ≠ id := hpre a (by simp)
    have := ih (fun v hv => hpre v (by simp [hv]))
    simp [eraseFirstWithId, ha, this]

theorem unlinkNext_eq_none_iff (t : Teacher) (n : ListNode) (id : Int) :
    unlinkNext t n id = none ↔ ∀ u ∈ n.enumerate, u.id ≠ id := by
  induction n generalizing t with
  | NULL => simp [unlinkNext]
  | node t0 n0 ih =>
    by_cases h0 : t0.id = id
    · simp [unlinkNext, h0]
    · simp [unlinkNext, h0, ih]

theorem unlinkNext_some (t : Teacher) (n : ListNode) (id : Int) (c : ListNode)
    (h : unlinkNext t n id = some c) :
    ∃ pre u post, n.enumerate = pre ++ u :: post ∧ (∀ v ∈ pre, v.id ≠ id) ∧ u.id = id ∧
      c.enumerate = t :: (pre ++ post) := by
  induction n generalizing t c with
  | NULL => simp [unlinkNext] at h
  | node t0 n0 ih =>
    by_cases h0 : t0.id = id
    · simp only [unlinkNext, h0, ne_eq, not_true_eq_false, if_false, Option.some.injEq] at h
      subst h
      exact ⟨[], t0, n0.enumerate, by simp, by simp, h0, by simp⟩
    · simp only [unlinkNext, ne_eq, h0, not_false_eq_true, if_true, Option.map_eq_some'] at h
      obtain ⟨c0, hc0, rfl⟩ := h
      obtain ⟨pre, u, post, hn, hpre, hu, hc⟩ := ih t0 c0 hc0
      refine ⟨t0 :: pre, u, post, by simp [hn], ?_, hu, by simp [hc]⟩
      intro v hv
      rcases List.mem_cons.mp hv with rfl | hv
      · exact h0
      · exact hpre v hv

/-- The three outcomes of `deleteByID`, in terms of the records of the store. -/
theorem deleteByID_cases (list : TList) (id : Int) :
    (list.head = .NULL ∧ deleteByID list id = (-1, list)) ∨
    (list.head ≠ .NULL ∧ (∀ t ∈ list.enumerate, t.id ≠ id) ∧ deleteByID list id = (1, list)) ∨
    (∃ pre u post, list.enumerate = pre ++ u :: post ∧ (∀ v ∈ pre, v.id ≠ id) ∧ u.id = id ∧
      (deleteByID list id).1 = 0 ∧ (deleteByID list id).2.enumerate = pre ++ post ∧
      (deleteByID list id).2.length = wrap32 (list.length - 1)) := by
  obtain ⟨head, len⟩ := list
  cases head with
  | NULL => left; exact ⟨rfl, rfl⟩
  | node t nxt =>
    right
    by_cases h0 : t.id = id
    · right
      exact ⟨[], t, nxt.enumerate, by simp [TList.enumerate], by simp, h0,
        by simp [deleteByID, h0], by simp [deleteByID, h0, TList.enumerate],
        by simp [deleteByID, h0]⟩
    · cases hu : unlinkNext t nxt id with
      | none =>
        left
        refine ⟨by simp, ?_, by simp [deleteByID, h0, hu]⟩
        intro u hmem
        simp only [TList.enumerate, enumerate_node, List.mem_cons] at hmem
        rcases hmem with rfl | hmem
        · exact h0
        · exact (unlinkNext_eq_none_iff t nxt id).mp hu u hmem
      | some c =>
        right
        obtain ⟨pre, u, post, hn, hpre, hid, hc⟩ := unlinkNext_some t nxt id c hu
        refine ⟨t :: pre, u, post, by simp [TList.enumerate, hn], ?_, hid,
          by simp [deleteByID, h0, hu], by simp [deleteByID, h0, hu, TList.enumerate, hc],
          by simp [deleteByID, h0, hu]⟩
        intro v hv
        rcases List.mem_cons.mp hv with rfl | hv
        · exact h0
        · exact hpre v hv

theorem searchByID_ne_NULL_iff (list : TList) (id : Int) :
    searchByID list id ≠ .NULL ↔ ∃ t ∈ list.enumerate, t.id = id := by
  rw [Ne, searchByID, searchFrom_eq_NULL_iff]
  simp [TList.enumerate]

theorem isUniqueID_eq_true_iff (list : TList) (id : Int) :
    isUniqueID list id = true ↔ id ∉ list.ids := by
  rw [mem_ids_iff, ← searchByID_ne_NULL_iff]
  unfold isUniqueID
  cases h : searchByID list id <;> simp

theorem applyOp_count (list : TList) (op : Op)
    (h : list.length = wrap32 list.enumerate.length) :
    (applyOp list op).length = wrap32 (applyOp list op).enumerate.length := by
  cases op with
  | insert t =>
    simp only [applyOp, insert_length, enumerate_insert, List.length_cons, h]
    push_cast
    exact wrap32_add _ 1
  | deleteByID id =>
    rcases deleteByID_cases list id with ⟨_, hd⟩ | ⟨_, _, hd⟩ | ⟨pre, u, post, hl, _, _, _, he, hlen⟩
    · simpa [applyOp, hd] using h
    · simpa [applyOp, hd] using h
    · simp only [applyOp, he, hlen, h, hl, List.length_append, List.length_cons]
      push_cast
      rw [← Int.add_neg_one, wrap32_add]
      congr 1
      ring

/-- The counter after any calls on a store whose counter is its number of
nodes reduced to the `int` range: again the number of nodes so reduced. -/
theorem runOps_count (list : TList) (ops : List Op)
    (h : list.length = wrap32 list.enumerate.length) :
    (runOps list ops).length = wrap32 (runOps list ops).enumerate.length := by
  induction ops generalizing list with
  | nil => exact h
  | cons op ops ih => exact ih (applyOp list op) (applyOp_count list op h)

theorem runOps_map_insert (list : TList) (rs : List Teacher) :
    runOps list (rs.map Op.insert) = insertAll list rs := by
  induction rs generalizing list with
  | nil => rfl
  | cons r rs ih => exact ih (insert list r)

theorem setT_found (n : ListNode) (id : Int) (t t' : Teacher) (nxt : ListNode)
    (h : searchFrom n id = .node t nxt) :
    ∃ pre, n.enumerate = pre ++ t :: nxt.enumerate ∧ (∀ u ∈ pre, u.id ≠ id) ∧
      (n.setT (.node t nxt) t').enumerate = pre ++ t' :: nxt.enumerate := by
  induction n with
  | NULL => simp [searchFrom] at h
  | node t0 n0 ih =>
    by_cases h0 : t0.id = id
    · simp only [searchFrom, h0, if_true, ListNode.node.injEq] at h
      obtain ⟨rfl, rfl⟩ := h
      exact ⟨[], by simp, by simp, by simp [ListNode.setT]⟩
    · simp only [searchFrom, h0, if_false] at h
      have htid : t.id = id := (searchFrom_node n0 id t nxt h).1
      have hne : ListNode.node t0 n0 ≠ ListNode.node t nxt := by
        intro heq
        simp only [ListNode.node.injEq] at heq
        exact h0 (heq.1 ▸ htid)
      obtain ⟨pre, hpre, hno, hset⟩ := ih h
      refine ⟨t0 :: pre, by simp [hpre], ?_, by simp [ListNode.setT, hne, hset]⟩
      intro u hu
      rcases List.mem_cons.mp hu with rfl | hu
      · exact h0
      · exact hno u hu

theorem enumerate_injective (n m : ListNode) (h : n.enumerate = m.enumerate) : n = m := by
  induction n generalizing m with
  | NULL =>
    cases m with
    | NULL => rfl
    | node t m0 => simp at h
  | node t n0 ih =>
    cases m with
    | NULL => simp at h
    | node u m0 =>
      simp only [enumerate_node, List.cons.injEq] at h
      rw [h.1, ih m0 h.2]

/-- Records whose id is not the one looked for are passed over by the search. -/
theorem searchFrom_skip (pre : List Teacher) (n rest : ListNode) (id : Int)
    (h : n.enumerate = pre ++ rest.enumerate) (hpre : ∀ u ∈ pre, u.id ≠ id) :
    searchFrom n id = searchFrom rest id := by
  induction pre generalizing n with
  | nil =>
    rw [enumerate_injective n rest (by simpa using h)]
  | cons a pre ih =>
    cases n with
    | NULL => simp at h
    | node t n0 =>
      simp only [enumerate_node, List.cons_append, List.cons.injEq] at h
      have ha : t.id ≠ id := h.1 ▸ hpre a (by simp)
      simp only [searchFrom, ha, if_false]
      exact ih n0 h.2 (fun u hu => hpre u (by simp [hu]))

/-- A delete of an id that some record has: it succeeds and erases the first
such record. -/
theorem deleteByID_of_mem (list : TList) (id : Int)
    (hmem : ∃ t ∈ list.enumerate, t.id = id) :
    (deleteByID list id).1 = 0 ∧
    (deleteByID list id).2.enumerate = eraseFirstWithId list.enumerate id ∧
    (deleteByID list id).2.length = wrap32 (list.length - 1) := by
  obtain ⟨t, ht, htid⟩ := hmem
  rcases deleteByID_cases list id with ⟨hnull, _⟩ | ⟨_, hno, _⟩ |
    ⟨pre, u, post, hl, hpre, hu, hret, he, hlen⟩
  · simp [TList.enumerate, hnull] at ht
  · exact absurd htid (hno t ht)
  · exact ⟨hret, by rw [he, hl, eraseFirstWithId_append pre post u id hpre hu], hlen⟩

/-- The ids of the store after `deleteByID`: the same, or one of them left out. -/
theorem deleteByID_ids_sublist (list : TList) (id : Int) :
    (deleteByID list id).2.ids.Sublist list.ids := by
  rcases deleteByID_cases list id with ⟨_, hd⟩ | ⟨_, _, hd⟩ | ⟨pre, u, post, hl, _, _, _, he, _⟩
  · rw [hd]
  · rw [hd]
  · simp only [TList.ids, he, hl]
    exact ((List.sublist_cons_self u post).append_left pre).map Teacher.id

/-- The ids of the store are the same after `updateById`, in the same order. -/
theorem updateById_ids (list : TList) (id : Int) (stdin : Stdin) :
    (updateById list id stdin).2.1.ids = list.ids := by
  cases hs : searchByID list id with
  | NULL => simp [updateById, hs]
  | node t nxt =>
    obtain ⟨pre, hpre, _, hset⟩ :=
      setT_found list.head id t (updateTeacher t stdin).1 nxt hs
    simp only [updateById, hs, TList.ids, TList.enumerate, hset]
    rw [show list.head.enumerate = pre ++ t :: nxt.enumerate from hpre]
    simp [updateTeacher]

theorem enumerate_insertAll (list : TList) (rs : List Teacher) :
    (insertAll list rs).enumerate = rs.reverse ++ list.enumerate := by
  induction rs generalizing list with
  | nil => simp [insertAll]
  | cons r rs ih =>
    have h := ih (insert list r)
    simp only [insertAll, List.foldl_cons] at h ⊢
    rw [h]
    simp

theorem length_insertAll (list : TList) (rs : List Teacher) :
    (insertAll list rs).length = wrap32 (list.length + rs.length) := by
  induction rs generalizing list with
  | nil => simpa [insertAll] using (wrap32_of_int list.length list.length_int).symm
  | cons r rs ih =>
    have h := ih (insert list r)
    simp only [insertAll, List.foldl_cons] at h ⊢
    rw [h, insert_length, wrap32_add]
    simp only [List.length_cons]
    push_cast
    congr 1
    ring

/-- The number of records with the id, from the first match of the search on:
one for the node found, plus those behind it. -/
theorem count_ids_of_search (list : TList) (X : Int) (t : Teacher) (nxt : ListNode)
    (hs : searchByID list X = .node t nxt) :
    list.ids.count X = (nxt.enumerate.map Teacher.id).count X + 1 := by
  obtain ⟨htid, pre, hpre, hno⟩ := searchFrom_node list.head X t nxt hs
  have h0 : (pre.map Teacher.id).count X = 0 := by
    rw [List.count_eq_zero]
    intro hmem
    obtain ⟨u, hu, huid⟩ := List.mem_map.mp hmem
    exact hno u hu huid
  simp only [TList.ids, TList.enumerate, hpre, List.map_append, List.map_cons,
    List.count_append, h0, htid, List.count_cons_self]
  omega

theorem createList_count : createList.length = wrap32 createList.enumerate.length := by
  simp [createList, TList.enumerate, wrap32]

/-- C1, as amended (count invariant): after any finite sequence of `insert` and
`deleteByID` calls on a store returned by `createList` that leaves at most
`INT_MAX` nodes reachable from `head`, the `length` field equals the number of
those nodes. -/
theorem count_invariant_in_int_range (ops : List Op)
    (hbound : ((runOps createList ops).enumerate.length : Int) ≤ INT_MAX) :
    (runOps createList ops).length = ((runOps createList ops).enumerate.length : Int) := by
  rw [runOps_count createList ops createList_count]
  unfold INT_MAX at hbound
  exact wrap32_of_int _ ⟨by omega, hbound⟩

/-- Witness for C1 as amended: Alice and Bob are inserted, then id 1 is
deleted; one node is left. -/
theorem count_invariant_in_int_range_witness :
    (((runOps createList [.insert ⟨1, 30, "Alice"⟩, .insert ⟨2, 40, "Bob"⟩,
        .deleteByID 1]).enumerate.length : Nat) : Int) ≤ INT_MAX ∧
    (runOps createList [.insert ⟨1, 30, "Alice"⟩, .insert ⟨2, 40, "Bob"⟩,
        .deleteByID 1]).length
      = ((runOps createList [.insert ⟨1, 30, "Alice"⟩, .insert ⟨2, 40, "Bob"⟩,
        .deleteByID 1]).enumerate.length : Int) :=
  ⟨by decide,
    count_invariant_in_int_range [.insert ⟨1, 30, "Alice"⟩, .insert ⟨2, 40, "Bob"⟩,
      .deleteByID 1] (by decide)⟩

/-- Counterexample to C1 as stated: after `2 ^ 31` calls of `insert` on the
store of `createList`, `2 ^ 31` nodes are reachable from `head` and the
`length` field is `- 2 ^ 31`: the last `length++` went from `INT_MAX` to
`INT_MIN`. -/
theorem count_invariant_counterexample :
    (runOps createList
        ((List.replicate 2147483648 (⟨1, 30, "Alice"⟩ : Teacher)).map Op.insert)).length
      = -2147483648 ∧
    (runOps createList
        ((List.replicate 2147483648 (⟨1, 30, "Alice"⟩ : Teacher)).map Op.insert)).enumerate.length
      = 2147483648 ∧
    ¬ ((runOps createList
        ((List.replicate 2147483648 (⟨1, 30, "Alice"⟩ : Teacher)).map Op.insert)).length
      = ((runOps createList
        ((List.replicate 2147483648 (⟨1, 30, "Alice"⟩ : Teacher)).map Op.insert)).enumerate.length
        : Int)) := by
  have hlen := length_insertAll createList (List.replicate 2147483648 (⟨1, 30, "Alice"⟩ : Teacher))
  have henum := congrArg List.length
    (enumerate_insertAll createList (List.replicate 2147483648 (⟨1, 30, "Alice"⟩ : Teacher)))
  rw [List.length_replicate] at hlen
  rw [List.length_append, List.length_reverse, List.length_replicate] at henum
  rw [runOps_map_insert]
  have h0 : createList.length = 0 := rfl
  have h1 : createList.enumerate.length = 0 := rfl
  rw [h0] at hlen
  rw [h1] at henum
  have hw : wrap32 (0 + ((2147483648 : Nat) : Int)) = -2147483648 := by
    unfold wrap32
    omega
  rw [hw] at hlen
  refine ⟨hlen, henum, ?_⟩
  rw [hlen, henum]
  omega

/-- C2 (uniqueness): from a store whose ids are pairwise distinct, a sequence
of inserts each of which is made only when `isUniqueID` is true on the store
right before it yields a store whose ids are pairwise distinct. -/
theorem uniqueness_guarded_inserts (list : TList) (ts : List Teacher)
    (hdistinct : list.ids.Nodup) (hguard : guardedInserts list ts = true) :
    (insertAll list ts).ids.Nodup := by
  induction ts generalizing list with
  | nil => exact hdistinct
  | cons t ts ih =>
    simp only [guardedInserts, Bool.and_eq_true] at hguard
    obtain ⟨hu, hrest⟩ := hguard
    have hnot : t.id ∉ list.ids := (isUniqueID_eq_true_iff list t.id).mp hu
    have hd : (insert list t).ids.Nodup := by
      rw [ids_insert]
      exact List.nodup_cons.mpr ⟨hnot, hdistinct⟩
    exact ih (insert list t) hd hrest

/-- Witness for C2: Alice (id 1) and then Bob (id 2) are inserted into the
empty store of `createList`, each after a passing `isUniqueID` check. -/
theorem uniqueness_guarded_inserts_witness :
    createList.ids.Nodup ∧
    guardedInserts createList [⟨1, 30, "Alice"⟩, ⟨2, 40, "Bob"⟩] = true ∧
    (insertAll createList [⟨1, 30, "Alice"⟩, ⟨2, 40, "Bob"⟩]).ids.Nodup :=
  ⟨by decide, by decide,
    uniqueness_guarded_inserts createList [⟨1, 30, "Alice"⟩, ⟨2, 40, "Bob"⟩]
      (by decide) (by decide)⟩

/-- C3 (insert then find): after `insert(list, t)`, `searchByID(list, t.id)`
returns a node, not `NULL`: the new head node, whose record is `t` itself,
whatever the store held before. -/
theorem insert_then_find (list : TList) (t : Teacher) :
    searchByID (insert list t) t.id ≠ .NULL ∧
    searchByID (insert list t) t.id = .node t list.head ∧
    searchByID (insert list t) t.id = (insert list t).head := by
  have h : searchByID (insert list t) t.id = .node t list.head := by
    simp [searchByID, insert_head, searchFrom]
  exact ⟨by simp [h], h, h.trans rfl⟩

/-- C5 (result of `deleteByID`): it returns -1 exactly when the store has no
record; 1 exactly when the store has a record and none has the id; 0 exactly
when some record has the id, which is exactly when `searchByID` on the same
store does not return `NULL`. -/
theorem deleteByID_classification (list : TList) (id : Int) :
    ((deleteByID list id).1 = -1 ↔ list.enumerate = []) ∧
    ((deleteByID list id).1 = 1 ↔
      list.enumerate ≠ [] ∧ ∀ t ∈ list.enumerate, t.id ≠ id) ∧
    ((deleteByID list id).1 = 0 ↔ ∃ t ∈ list.enumerate, t.id = id) ∧
    ((deleteByID list id).1 = 0 ↔ searchByID list id ≠ .NULL) := by
  rw [searchByID_ne_NULL_iff]
  rcases deleteByID_cases list id with ⟨hnull, hd⟩ | ⟨hne, hno, hd⟩ |
    ⟨pre, u, post, hl, hpre, hu, hret, _, _⟩
  · have he : list.enumerate = [] := by simp [TList.enumerate, hnull]
    simp [hd, he]
  · have he : list.enumerate ≠ [] := by
      intro h
      exact hne ((enumerate_eq_nil_iff _).mp h)
    have hnone : ¬ ∃ t ∈ list.enumerate, t.id = id := by
      rintro ⟨t, ht, htid⟩
      exact hno t ht htid
    simp [hd, he, hnone]
    exact hno
  · have hex : ∃ t ∈ list.enumerate, t.id = id := ⟨u, by simp [hl], hu⟩
    have he : list.enumerate ≠ [] := by simp [hl]
    have hnall : ¬ ∀ t ∈ list.enumerate, t.id ≠ id := by
      intro h
      obtain ⟨t, ht, htid⟩ := hex
      exact h t ht htid
    simp [hret, he, hex, hnall]

/-- C6 (`deleteByID` removes exactly the first match): when `deleteByID(list, X)`
returns 0, the records afterwards are the records before with the first record
of id `X` erased (the reference definition `eraseFirstWithId`); the records
before it and after it are unchanged and keep their order.  One statement
covers the head node and the interior and tail nodes. -/
theorem deleteByID_erases_first (list : TList) (X : Int)
    (hret : (deleteByID list X).1 = 0) :
    (deleteByID list X).2.enumerate = eraseFirstWithId list.enumerate X ∧
    ∃ pre t post, list.enumerate = pre ++ t :: post ∧ (∀ u ∈ pre, u.id ≠ X) ∧ t.id = X ∧
      (deleteByID list X).2.enumerate = pre ++ post := by
  rcases deleteByID_cases list X with ⟨_, hd⟩ | ⟨_, _, hd⟩ |
    ⟨pre, u, post, hl, hpre, hu, _, he, _⟩
  · rw [hd] at hret; simp at hret
  · rw [hd] at hret; simp at hret
  · refine ⟨?_, pre, u, post, hl, hpre, hu, he⟩
    rw [he, hl, eraseFirstWithId_append pre post u X hpre hu]

/-- Witness for C6: from the store [Carl (id 1), Bob (id 2), Alice (id 1)],
deleting id 2 unlinks an interior node and deleting id 1 unlinks the head. -/
theorem deleteByID_erases_first_witness :
    ((deleteByID (insertAll createList
        [⟨1, 30, "Alice"⟩, ⟨2, 40, "Bob"⟩, ⟨1, 50, "Carl"⟩]) 2).1 = 0 ∧
      (deleteByID (insertAll createList
        [⟨1, 30, "Alice"⟩, ⟨2, 40, "Bob"⟩, ⟨1, 50, "Carl"⟩]) 2).2.enumerate
        = eraseFirstWithId (insertAll createList
            [⟨1, 30, "Alice"⟩, ⟨2, 40, "Bob"⟩, ⟨1, 50, "Carl"⟩]).enumerate 2) ∧
    ((deleteByID (insertAll createList
        [⟨1, 30, "Alice"⟩, ⟨2, 40, "Bob"⟩, ⟨1, 50, "Carl"⟩]) 1).1 = 0 ∧
      (deleteByID (insertAll createList
        [⟨1, 30, "Alice"⟩, ⟨2, 40, "Bob"⟩, ⟨1, 50, "Carl"⟩]) 1).2.enumerate
        = eraseFirstWithId (insertAll createList
            [⟨1, 30, "Alice"⟩, ⟨2, 40, "Bob"⟩, ⟨1, 50, "Carl"⟩]).enumerate 1) :=
  ⟨⟨by decide, (deleteByID_erases_first (insertAll createList
      [⟨1, 30, "Alice"⟩, ⟨2, 40, "Bob"⟩, ⟨1, 50, "Carl"⟩]) 2 (by decide)).1⟩,
    ⟨by decide, (deleteByID_erases_first (insertAll createList
      [⟨1, 30, "Alice"⟩, ⟨2, 40, "Bob"⟩, ⟨1, 50, "Carl"⟩]) 1 (by decide)).1⟩⟩

/-- C7 (`updateById` on an existing id): when the store holds a record with id
`X` and the user gives `newName` and `newAge`, `updateById(list, X)` returns 0
and afterwards the first record from the head with id `X` has id `X`, the new
age and the new name; the records before and after it, their order and
`length` are unchanged. -/
theorem updateById_existing (list : TList) (X newAge : Int) (newName : String)
    (rest : Stdin) (hmem : X ∈ list.ids) :
    (updateById list X (Stdin.push ⟨newName, newAge⟩ rest)).1 = 0 ∧
    (updateById list X (Stdin.push ⟨newName, newAge⟩ rest)).2.1.length = list.length ∧
    ∃ pre t post, list.enumerate = pre ++ t :: post ∧ (∀ u ∈ pre, u.id ≠ X) ∧ t.id = X ∧
      (updateById list X (Stdin.push ⟨newName, newAge⟩ rest)).2.1.enumerate
        = pre ++ ⟨X, newAge, newName⟩ :: post := by
  have hfound : searchByID list X ≠ .NULL :=
    (searchByID_ne_NULL_iff list X).mpr ((mem_ids_iff list X).mp hmem)
  cases hs : searchByID list X with
  | NULL => exact absurd hs hfound
  | node t nxt =>
    have htid : t.id = X := (searchFrom_node list.head X t nxt hs).1
    obtain ⟨pre, hpre, hno, hset⟩ :=
      setT_found list.head X t (updateTeacher t (Stdin.push ⟨newName, newAge⟩ rest)).1 nxt hs
    refine ⟨by simp [updateById, hs], by simp [updateById, hs],
      pre, t, nxt.enumerate, hpre, hno, htid, ?_⟩
    simp only [updateById, hs, TList.enumerate, hset]
    simp [updateTeacher, Stdin.read, Stdin.push, htid]

/-- Witness for C7: in the store [Bob (id 2), Alice (id 1)] the record of id 1
is given the name Zed and the age 99. -/
theorem updateById_existing_witness :
    (1 : Int) ∈ (insertAll createList [⟨1, 30, "Alice"⟩, ⟨2, 40, "Bob"⟩]).ids ∧
    (updateById (insertAll createList [⟨1, 30, "Alice"⟩, ⟨2, 40, "Bob"⟩]) 1
      (Stdin.push ⟨"Zed", 99⟩ ⟨fun _ => ⟨"", 0⟩⟩)).1 = 0 ∧
    (updateById (insertAll createList [⟨1, 30, "Alice"⟩, ⟨2, 40, "Bob"⟩]) 1
      (Stdin.push ⟨"Zed", 99⟩ ⟨fun _ => ⟨"", 0⟩⟩)).2.1.length
      = (insertAll createList [⟨1, 30, "Alice"⟩, ⟨2, 40, "Bob"⟩]).length ∧
    (updateById (insertAll createList [⟨1, 30, "Alice"⟩, ⟨2, 40, "Bob"⟩]) 1
      (Stdin.push ⟨"Zed", 99⟩ ⟨fun _ => ⟨"", 0⟩⟩)).2.1.enumerate
      = [⟨2, 40, "Bob"⟩, ⟨1, 99, "Zed"⟩] :=
  ⟨by decide,
    (updateById_existing (insertAll createList [⟨1, 30, "Alice"⟩, ⟨2, 40, "Bob"⟩]) 1 99 "Zed"
      ⟨fun _ => ⟨"", 0⟩⟩ (by decide)).1,
    (updateById_existing (insertAll createList [⟨1, 30, "Alice"⟩, ⟨2, 40, "Bob"⟩]) 1 99 "Zed"
      ⟨fun _ => ⟨"", 0⟩⟩ (by decide)).2.1,
    by decide⟩

/-- C8 (`updateById` on a missing id): when no record of the store has id `X`,
`updateById(list, X)` returns 1, the store is unchanged and nothing is read
from the input. -/
theorem updateById_missing (list : TList) (X : Int) (stdin : Stdin)
    (hmissing : X ∉ list.ids) :
    updateById list X stdin = (1, list, stdin) := by
  have hs : searchByID list X = .NULL := by
    by_contra hne
    exact hmissing ((mem_ids_iff list X).mpr ((searchByID_ne_NULL_iff list X).mp hne))
  simp [updateById, hs]

/-- Witness for C8: id 7 is looked for in the store [Bob (id 2), Alice (id 1)]. -/
theorem updateById_missing_witness :
    (7 : Int) ∉ (insertAll createList [⟨1, 30, "Alice"⟩, ⟨2, 40, "Bob"⟩]).ids ∧
    updateById (insertAll createList [⟨1, 30, "Alice"⟩, ⟨2, 40, "Bob"⟩]) 7
        (Stdin.push ⟨"Zed", 99⟩ ⟨fun _ => ⟨"", 0⟩⟩)
      = (1, insertAll createList [⟨1, 30, "Alice"⟩, ⟨2, 40, "Bob"⟩],
          Stdin.push ⟨"Zed", 99⟩ ⟨fun _ => ⟨"", 0⟩⟩) :=
  ⟨by decide,
    updateById_missing (insertAll createList [⟨1, 30, "Alice"⟩, ⟨2, 40, "Bob"⟩]) 7
      (Stdin.push ⟨"Zed", 99⟩ ⟨fun _ => ⟨"", 0⟩⟩) (by decide)⟩

/-- C9 (a failed delete leaves the store unchanged): when `deleteByID` returns
-1 or 1, the store (records, order and `length`) is as before the call; and on
the store of `createList` it returns -1 and leaves `length` equal to 0. -/
theorem failed_delete_unchanged (list : TList) (id : Int)
    (hfail : (deleteByID list id).1 = -1 ∨ (deleteByID list id).1 = 1) :
    (deleteByID list id).2 = list ∧
    ∀ id0 : Int, (deleteByID createList id0).1 = -1 ∧
      (deleteByID createList id0).2 = createList ∧
      (deleteByID createList id0).2.length = 0 := by
  refine ⟨?_, fun id0 => ⟨rfl, rfl, rfl⟩⟩
  rcases deleteByID_cases list id with ⟨_, hd⟩ | ⟨_, _, hd⟩ | ⟨_, _, _, _, _, _, hret, _, _⟩
  · rw [hd]
  · rw [hd]
  · rw [hret] at hfail
    rcases hfail with h | h <;> exact absurd h (by decide)

/-- Witness for C9: id 7 is not in the store [Bob (id 2), Alice (id 1)], so
`deleteByID` returns 1 there. -/
theorem failed_delete_unchanged_witness :
    (deleteByID (insertAll createList [⟨1, 30, "Alice"⟩, ⟨2, 40, "Bob"⟩]) 7).1 = 1 ∧
    (deleteByID (insertAll createList [⟨1, 30, "Alice"⟩, ⟨2, 40, "Bob"⟩]) 7).2
      = insertAll createList [⟨1, 30, "Alice"⟩, ⟨2, 40, "Bob"⟩] :=
  ⟨by decide,
    (failed_delete_unchanged (insertAll createList [⟨1, 30, "Alice"⟩, ⟨2, 40, "Bob"⟩]) 7
      (Or.inr (by decide))).1⟩

/-- C10 (`searchByID` returns the first match): it returns `NULL` exactly when
no record of the store has the id; a node it returns is a node of the store
whose record has the id, and no node before it has the id.  The function only
reads the store. -/
theorem searchByID_first_match (list : TList) (id : Int) :
    (searchByID list id = .NULL ↔ ∀ t ∈ list.enumerate, t.id ≠ id) ∧
    ((∃ t ∈ list.enumerate, t.id = id) ↔ ∃ t nxt, searchByID list id = .node t nxt) ∧
    ∀ t nxt, searchByID list id = .node t nxt →
      t.id = id ∧ ∃ pre, list.enumerate = pre ++ (ListNode.node t nxt).enumerate ∧
        ∀ u ∈ pre, u.id ≠ id := by
  refine ⟨searchFrom_eq_NULL_iff list.head id, ?_, fun t nxt h => searchFrom_node list.head id t nxt h⟩
  rw [← searchByID_ne_NULL_iff]
  cases searchByID list id <;> simp

/-- Witness for C10: in the store [Carl (id 1), Bob (id 2), Alice (id 1)] the
search for id 1 returns the head node (Carl), the search for id 2 the second
node. -/
theorem searchByID_first_match_witness :
    searchByID (insertAll createList
        [⟨1, 30, "Alice"⟩, ⟨2, 40, "Bob"⟩, ⟨1, 50, "Carl"⟩]) 2
      = .node ⟨2, 40, "Bob"⟩ (.node ⟨1, 30, "Alice"⟩ .NULL) ∧
    ((2 : Int) = 2 ∧ ∃ pre, (insertAll createList
        [⟨1, 30, "Alice"⟩, ⟨2, 40, "Bob"⟩, ⟨1, 50, "Carl"⟩]).enumerate
        = pre ++ (ListNode.node ⟨2, 40, "Bob"⟩ (.node ⟨1, 30, "Alice"⟩ .NULL)).enumerate ∧
        ∀ u ∈ pre, u.id ≠ 2) :=
  ⟨by decide,
    (searchByID_first_match (insertAll createList
        [⟨1, 30, "Alice"⟩, ⟨2, 40, "Bob"⟩, ⟨1, 50, "Carl"⟩]) 2).2.2
      ⟨2, 40, "Bob"⟩ (.node ⟨1, 30, "Alice"⟩ .NULL) (by decide)⟩

/-- C11 (`isUniqueID` is the negation of membership): `isUniqueID(list, id)` is
true exactly when `searchByID(list, id)` returns `NULL`, which is exactly when
no record of the store has the id. -/
theorem isUniqueID_iff_search_NULL (list : TList) (id : Int) :
    (isUniqueID list id = true ↔ searchByID list id = .NULL) ∧
    (searchByID list id = .NULL ↔ ∀ t ∈ list.enumerate, t.id ≠ id) ∧
    (isUniqueID list id = true ↔ ∀ t ∈ list.enumerate, t.id ≠ id) := by
  have h1 : isUniqueID list id = true ↔ searchByID list id = .NULL := by
    unfold isUniqueID
    cases searchByID list id <;> simp
  have h2 : searchByID list id = .NULL ↔ ∀ t ∈ list.enumerate, t.id ≠ id :=
    searchFrom_eq_NULL_iff list.head id
  exact ⟨h1, h2, h1.trans h2⟩

/-- C12, as amended (head-first enumeration): after `insert(list, t)` the
enumeration is `t` followed by the enumeration before, and `length` is one
more when it was below `INT_MAX` before; so inserting `r1, ..., rn` in this
order into the store of `createList` gives the enumeration `rn, ..., r1`, with
`length` n when n is at most `INT_MAX`, as for Alice and then Bob, which
enumerate as Bob, Alice. -/
theorem head_first_enumeration (list : TList) (t : Teacher) (rs : List Teacher) :
    (insert list t).enumerate = t :: list.enumerate ∧
    (list.length < INT_MAX → (insert list t).length = list.length + 1) ∧
    (insertAll createList rs).enumerate = rs.reverse ∧
    ((rs.length : Int) ≤ INT_MAX → (insertAll createList rs).length = rs.length) ∧
    (insert (insert createList ⟨1, 30, "Alice"⟩) ⟨2, 40, "Bob"⟩).enumerate
      = [⟨2, 40, "Bob"⟩, ⟨1, 30, "Alice"⟩] := by
  have hrange := list.length_int
  refine ⟨rfl, ?_, ?_, ?_, rfl⟩
  · intro hlt
    unfold INT_MAX at hlt
    rw [insert_length]
    exact wrap32_of_int _ ⟨by omega, by omega⟩
  · rw [enumerate_insertAll]
    simp [createList, TList.enumerate]
  · intro hle
    unfold INT_MAX at hle
    rw [length_insertAll]
    have h0 : createList.length = 0 := rfl
    rw [h0, zero_add]
    exact wrap32_of_int _ ⟨by omega, hle⟩

/-- Witness for C12 as amended: Alice is inserted into the store of
`createList`, whose `length` is 0, and Alice and then Bob are inserted. -/
theorem head_first_enumeration_witness :
    createList.length < INT_MAX ∧
    (insert createList ⟨1, 30, "Alice"⟩).length = createList.length + 1 ∧
    ((([⟨1, 30, "Alice"⟩, ⟨2, 40, "Bob"⟩] : List Teacher).length : Nat) : Int) ≤ INT_MAX ∧
    (insertAll createList [⟨1, 30, "Alice"⟩, ⟨2, 40, "Bob"⟩]).length
      = (([⟨1, 30, "Alice"⟩, ⟨2, 40, "Bob"⟩] : List Teacher).length : Int) :=
  ⟨by decide,
    (head_first_enumeration createList ⟨1, 30, "Alice"⟩
      [⟨1, 30, "Alice"⟩, ⟨2, 40, "Bob"⟩]).2.1 (by decide),
    by decide,
    (head_first_enumeration createList ⟨1, 30, "Alice"⟩
      [⟨1, 30, "Alice"⟩, ⟨2, 40, "Bob"⟩]).2.2.2.1 (by decide)⟩

/-- Counterexample to C12 as stated: the store built from `createList` by
`2 ^ 31 - 1` calls of `insert` has `length` equal to `INT_MAX`; one more
`insert` leaves `length` at `INT_MIN`, which is not one more. -/
theorem head_first_enumeration_counterexample :
    (insertAll createList (List.replicate 2147483647 (⟨1, 30, "Alice"⟩ : Teacher))).length
      = 2147483647 ∧
    (insert (insertAll createList (List.replicate 2147483647 (⟨1, 30, "Alice"⟩ : Teacher)))
      ⟨2, 40, "Bob"⟩).length = -2147483648 ∧
    ¬ ((insert (insertAll createList (List.replicate 2147483647 (⟨1, 30, "Alice"⟩ : Teacher)))
      ⟨2, 40, "Bob"⟩).length
      = (insertAll createList
          (List.replicate 2147483647 (⟨1, 30, "Alice"⟩ : Teacher))).length + 1) := by
  have hlen : (insertAll createList
      (List.replicate 2147483647 (⟨1, 30, "Alice"⟩ : Teacher))).length = 2147483647 := by
    rw [length_insertAll, List.length_replicate]
    have h0 : createList.length = 0 := rfl
    rw [h0]
    unfold wrap32
    omega
  have hins : (insert (insertAll createList
      (List.replicate 2147483647 (⟨1, 30, "Alice"⟩ : Teacher))) ⟨2, 40, "Bob"⟩).length
      = -2147483648 := by
    rw [insert_length, hlen]
    unfold wrap32
    omega
  refine ⟨hlen, hins, ?_⟩
  rw [hins, hlen]
  omega

/-- C13 (tie-break on a duplicate id): on a store that holds two or more
records with id `X`, `deleteByID(list, X)` returns 0 and removes only the
record nearest the head (one record of id `X` fewer, all others kept in
order), and `searchByID(list, X)` afterwards returns, not `NULL`, the node that
was the second match from the head before the delete. -/
theorem duplicate_id_tie_break (list : TList) (X : Int)
    (hdup : 2 ≤ list.ids.count X) :
    (deleteByID list X).1 = 0 ∧
    (deleteByID list X).2.enumerate = eraseFirstWithId list.enumerate X ∧
    (deleteByID list X).2.ids.count X + 1 = list.ids.count X ∧
    searchByID (deleteByID list X).2 X = secondMatch list X ∧
    searchByID (deleteByID list X).2 X ≠ .NULL ∧
    ∃ pre t1 mid t2 rest,
      list.enumerate = pre ++ t1 :: (mid ++ t2 :: rest.enumerate) ∧
      (∀ u ∈ pre, u.id ≠ X) ∧ t1.id = X ∧ (∀ u ∈ mid, u.id ≠ X) ∧ t2.id = X ∧
      (deleteByID list X).2.enumerate = pre ++ (mid ++ t2 :: rest.enumerate) ∧
      searchByID (deleteByID list X).2 X = .node t2 rest := by
  have hin : X ∈ list.ids := List.count_pos_iff.mp (by omega)
  have hex : ∃ t ∈ list.enumerate, t.id = X := (mem_ids_iff list X).mp hin
  cases hs : searchByID list X with
  | NULL => exact absurd hs ((searchByID_ne_NULL_iff list X).mpr hex)
  | node t1 nxt =>
    obtain ⟨ht1, pre, hpre, hno⟩ := searchFrom_node list.head X t1 nxt hs
    have hcount := count_ids_of_search list X t1 nxt hs
    have hin2 : X ∈ nxt.enumerate.map Teacher.id := List.count_pos_iff.mp (by omega)
    have hex2 : ∃ t ∈ nxt.enumerate, t.id = X := by simpa using hin2
    have hne2 : searchFrom nxt X ≠ .NULL := by
      rw [Ne, searchFrom_eq_NULL_iff]
      intro hall
      obtain ⟨t, ht, htid⟩ := hex2
      exact hall t ht htid
    obtain ⟨hret, herase, _⟩ := deleteByID_of_mem list X hex
    have henum : (deleteByID list X).2.enumerate = pre ++ nxt.enumerate := by
      rw [herase]
      change eraseFirstWithId list.head.enumerate X = _
      rw [hpre, eraseFirstWithId_append pre nxt.enumerate t1 X hno ht1]
    have hsearch : searchByID (deleteByID list X).2 X = searchFrom nxt X :=
      searchFrom_skip pre (deleteByID list X).2.head nxt X henum hno
    have hsecond : secondMatch list X = searchFrom nxt X := by
      simp [secondMatch, hs]
    have hcount2 : (deleteByID list X).2.ids.count X
        = (nxt.enumerate.map Teacher.id).count X := by
      have h0 : (pre.map Teacher.id).count X = 0 := by
        rw [List.count_eq_zero]
        intro hmem
        obtain ⟨u, hu, huid⟩ := List.mem_map.mp hmem
        exact hno u hu huid
      simp [TList.ids, henum, List.count_append, h0]
    refine ⟨hret, herase, by omega, hsearch.trans hsecond.symm, by rw [hsearch]; exact hne2, ?_⟩
    cases hs2 : searchFrom nxt X with
    | NULL => exact absurd hs2 hne2
    | node t2 rest =>
      obtain ⟨ht2, mid, hmid, hno2⟩ := searchFrom_node nxt X t2 rest hs2
      refine ⟨pre, t1, mid, t2, rest, ?_, hno, ht1, hno2, ht2, ?_, hsearch.trans hs2⟩
      · change list.head.enumerate = _
        rw [hpre, hmid]
      · rw [henum, hmid]

/-- Witness for C13: the store [Carl (id 1), Bob (id 2), Alice (id 1)] holds
two records of id 1; deleting id 1 unlinks Carl, and the search for id 1 then
returns the node of Alice, the second match before the delete. -/
theorem duplicate_id_tie_break_witness :
    2 ≤ (insertAll createList
        [⟨1, 30, "Alice"⟩, ⟨2, 40, "Bob"⟩, ⟨1, 50, "Carl"⟩]).ids.count 1 ∧
    (deleteByID (insertAll createList
        [⟨1, 30, "Alice"⟩, ⟨2, 40, "Bob"⟩, ⟨1, 50, "Carl"⟩]) 1).1 = 0 ∧
    searchByID (deleteByID (insertAll createList
        [⟨1, 30, "Alice"⟩, ⟨2, 40, "Bob"⟩, ⟨1, 50, "Carl"⟩]) 1).2 1
      = secondMatch (insertAll createList
        [⟨1, 30, "Alice"⟩, ⟨2, 40, "Bob"⟩, ⟨1, 50, "Carl"⟩]) 1 ∧
    secondMatch (insertAll createList
        [⟨1, 30, "Alice"⟩, ⟨2, 40, "Bob"⟩, ⟨1, 50, "Carl"⟩]) 1
      = .node ⟨1, 30, "Alice"⟩ .NULL ∧
    (deleteByID (insertAll createList
        [⟨1, 30, "Alice"⟩, ⟨2, 40, "Bob"⟩, ⟨1, 50, "Carl"⟩]) 1).2.enumerate
      = [⟨2, 40, "Bob"⟩, ⟨1, 30, "Alice"⟩] :=
  ⟨by decide,
    (duplicate_id_tie_break (insertAll createList
      [⟨1, 30, "Alice"⟩, ⟨2, 40, "Bob"⟩, ⟨1, 50, "Carl"⟩]) 1 (by decide)).1,
    (duplicate_id_tie_break (insertAll createList
      [⟨1, 30, "Alice"⟩, ⟨2, 40, "Bob"⟩, ⟨1, 50, "Carl"⟩]) 1 (by decide)).2.2.2.1,
    by decide, by decide⟩

/-- C14 (delete undoes insert): `deleteByID(list, t.id)` right after
`insert(list, t)` returns 0 and gives back the store as it was before the
insert (same records, same order, same `length`), for every store, also one
that already holds a record with id `t.id`. -/
theorem delete_undoes_insert (list : TList) (t : Teacher) :
    deleteByID (insert list t) t.id = (0, list) ∧
    (deleteByID (insert list t) t.id).2.enumerate = list.enumerate ∧
    (deleteByID (insert list t) t.id).2.length = list.length := by
  have hrange := list.length_int
  have h : deleteByID (insert list t) t.id = (0, list) := by
    have hd : deleteByID (insert list t) t.id
        = (0, { head := list.head, length := wrap32 ((insert list t).length - 1),
                length_int := by unfold wrap32; omega }) := by
      simp [deleteByID, insert, createNode, ListNode.setNextNode]
    rw [hd]
    refine Prod.ext rfl (TList.eq_of_fields _ _ rfl ?_)
    show wrap32 (wrap32 (list.length + 1) - 1) = list.length
    unfold wrap32
    omega
  exact ⟨h, by rw [h], by rw [h]⟩

/-- C15 (`deleteByID` and `updateById` keep the ids distinct): on a store with
pairwise distinct ids, for every id and every new name and age, the store
after `deleteByID` and the store after `updateById` have pairwise distinct
ids, and the ids after `updateById` are the ids before (the same ids in the
same order, hence the same set). -/
theorem delete_update_keep_distinct (list : TList) (id newAge : Int) (newName : String)
    (rest : Stdin) (hdistinct : list.ids.Nodup) :
    (deleteByID list id).2.ids.Nodup ∧
    (updateById list id (Stdin.push ⟨newName, newAge⟩ rest)).2.1.ids.Nodup ∧
    (updateById list id (Stdin.push ⟨newName, newAge⟩ rest)).2.1.ids = list.ids ∧
    ∀ x, x ∈ (updateById list id (Stdin.push ⟨newName, newAge⟩ rest)).2.1.ids ↔ x ∈ list.ids := by
  have hids := updateById_ids list id (Stdin.push ⟨newName, newAge⟩ rest)
  refine ⟨hdistinct.sublist (deleteByID_ids_sublist list id), ?_, hids, ?_⟩
  · rw [hids]; exact hdistinct
  · intro x; rw [hids]

/-- Witness for C15: in the store [Bob (id 2), Alice (id 1)], whose ids are
distinct, id 1 is deleted, and id 1 is updated to the name Zed and the age 99. -/
theorem delete_update_keep_distinct_witness :
    (insertAll createList [⟨1, 30, "Alice"⟩, ⟨2, 40, "Bob"⟩]).ids.Nodup ∧
    (deleteByID (insertAll createList [⟨1, 30, "Alice"⟩, ⟨2, 40, "Bob"⟩]) 1).2.ids.Nodup ∧
    (updateById (insertAll createList [⟨1, 30, "Alice"⟩, ⟨2, 40, "Bob"⟩]) 1
      (Stdin.push ⟨"Zed", 99⟩ ⟨fun _ => ⟨"", 0⟩⟩)).2.1.ids.Nodup ∧
    (updateById (insertAll createList [⟨1, 30, "Alice"⟩, ⟨2, 40, "Bob"⟩]) 1
      (Stdin.push ⟨"Zed", 99⟩ ⟨fun _ => ⟨"", 0⟩⟩)).2.1.ids
      = (insertAll createList [⟨1, 30, "Alice"⟩, ⟨2, 40, "Bob"⟩]).ids :=
  ⟨by decide,
    (delete_update_keep_distinct (insertAll createList [⟨1, 30, "Alice"⟩, ⟨2, 40, "Bob"⟩])
      1 99 "Zed" ⟨fun _ => ⟨"", 0⟩⟩ (by decide)).1,
    (delete_update_keep_distinct (insertAll createList [⟨1, 30, "Alice"⟩, ⟨2, 40, "Bob"⟩])
      1 99 "Zed" ⟨fun _ => ⟨"", 0⟩⟩ (by decide)).2.1,
    (delete_update_keep_distinct (insertAll createList [⟨1, 30, "Alice"⟩, ⟨2, 40, "Bob"⟩])
      1 99 "Zed" ⟨fun _ => ⟨"", 0⟩⟩ (by decide)).2.2.1⟩

end TeacherList
